import Mathlib

/-! gonbdserver: the asynchronous-I/O file backend (`nbd/aiofile.go`).

A shallow embedding of `AioFileBackend` and `NewAioFileBackend`.

* Go's multiple return values `(n, err)` are pairs; a Go `error` is
  `Option GoError`, `none` standing for `nil`.
* The `goaio` engine and the operating system are not part of the repository:
  they are the parameter `Engine σ` / `Host σ`, a record of state-passing
  functions over an arbitrary state type `σ`.
* A `*AioFileBackend` receiver is the record `AioFileBackend σ`; every method
  returns the receiver as it is after the call.
* The `ctx context.Context` argument of every method is never read by the
  source and is left out.
-/

namespace Nbd

/-- One byte of a Go `[]byte`. -/
abbrev Byte := Fin 256

/-- A Go `error` value that is not `nil`. -/
abbrev GoError := String

/-- The calls the backend makes on the engine and on the operating system. -/
inductive Call where
  | NewAIO (path : String) (perms : Nat) (mode : Nat)
  | Stat
  | Wait
  | WriteAt (b : List Byte) (offset : Int)
  | ReadAt (b : List Byte) (offset : Int)
  | WaitFor (id : Nat)
  | Flush
  | Close
  deriving DecidableEq, Repr

/-- Whether a call submits a request to the engine. -/
def Call.isSubmit : Call → Bool
  | Call.WriteAt _ _ => true
  | Call.ReadAt _ _ => true
  | _ => false

/-- The methods of `*goaio.AIO` that `aiofile.go` calls, as state-passing
functions over the engine's state `σ`.  Go slices alias the caller's memory and
the engine fills the slice of a read request in place; here slices are passed by
value and `buffer id s` is the content, in state `s`, of the slice that was
handed over with request `id`. -/
structure Engine (σ : Type) where
  Wait : σ → Option GoError × σ
  WriteAt : List Byte → Int → σ → (Nat × Option GoError) × σ
  ReadAt : List Byte → Int → σ → (Nat × Option GoError) × σ
  WaitFor : Nat → σ → (Int × Option GoError) × σ
  Flush : σ → Option GoError × σ
  Close : σ → Option GoError × σ
  buffer : Nat → σ → List Byte

/-- What `NewAioFileBackend` needs besides the engine: the open flags of package
`os`, the repository's `isTrue` (declared outside `aiofile.go`),
`goaio.NewAIO`, and `aio.FD().Stat()` followed by `stat.Size()`. -/
structure Host (σ : Type) where
  O_RDONLY : Nat
  O_RDWR : Nat
  O_SYNC : Nat
  isTrue : String → Bool × Option GoError
  NewAIO : String → Nat → Nat → σ → Option GoError × σ
  Stat : σ → (Int × Option GoError) × σ
  aio : Engine σ

/-- The type `AioFileBackend`: the engine (here its state) and the size. -/
structure AioFileBackend (σ : Type) where
  aio : σ
  size : Nat
  deriving DecidableEq, Repr

/-- The fields of `ExportConfig` that `NewAioFileBackend` reads. -/
structure ExportConfig where
  ReadOnly : Bool
  DriverParameters : List (String × String)

/-- Indexing a Go `map[string]string`: the empty string for an absent key. -/
def ExportConfig.param (ec : ExportConfig) (key : String) : String :=
  (ec.DriverParameters.lookup key).getD ""

/-- The Go conversion `uint64(x)` of an `int64`. -/
def uint64 (x : Int) : Nat := (x % 2 ^ 64).toNat

variable {σ : Type}

/-- The method `AioFileBackend.WriteAt` (aiofile.go, lines 24-42). -/
def AioFileBackend.WriteAt (E : Engine σ) (afb : AioFileBackend σ) (b : List Byte)
    (offset : Int) (fua : Bool) : (Int × Option GoError) × AioFileBackend σ :=
  let w := E.Wait afb.aio
  match w.1 with
  | some err => ((0, some err), ⟨w.2, afb.size⟩)
  | none =>
    let sub := E.WriteAt b offset w.2
    match sub.1.2 with
    | some err => ((0, some err), ⟨sub.2, afb.size⟩)
    | none =>
      let c := E.WaitFor sub.1.1 sub.2
      match c.1.2 with
      | some err => ((0, some err), ⟨c.2, afb.size⟩)
      | none =>
        if fua then
          let f := E.Flush c.2
          match f.1 with
          | some err => ((0, some err), ⟨f.2, afb.size⟩)
          | none => ((c.1.1, none), ⟨f.2, afb.size⟩)
        else ((c.1.1, none), ⟨c.2, afb.size⟩)

/-- The method `AioFileBackend.ReadAt` (aiofile.go, lines 45-58).  The second
component of the result is the content of the slice `b` when the call returns. -/
def AioFileBackend.ReadAt (E : Engine σ) (afb : AioFileBackend σ) (b : List Byte)
    (offset : Int) : (Int × Option GoError) × List Byte × AioFileBackend σ :=
  let w := E.Wait afb.aio
  match w.1 with
  | some err => ((0, some err), b, ⟨w.2, afb.size⟩)
  | none =>
    let sub := E.ReadAt b offset w.2
    match sub.1.2 with
    | some err => ((0, some err), b, ⟨sub.2, afb.size⟩)
    | none =>
      let c := E.WaitFor sub.1.1 sub.2
      match c.1.2 with
      | some err => ((0, some err), E.buffer sub.1.1 c.2, ⟨c.2, afb.size⟩)
      | none => ((c.1.1, none), E.buffer sub.1.1 c.2, ⟨c.2, afb.size⟩)

/-- The method `AioFileBackend.TrimAt` (aiofile.go, lines 61-63). -/
def AioFileBackend.TrimAt (afb : AioFileBackend σ) (length : Int) (_offset : Int) :
    (Int × Option GoError) × AioFileBackend σ :=
  ((length, none), afb)

/-- The method `AioFileBackend.Flush` (aiofile.go, lines 66-68). -/
def AioFileBackend.Flush (E : Engine σ) (afb : AioFileBackend σ) :
    Option GoError × AioFileBackend σ :=
  let f := E.Flush afb.aio
  (f.1, ⟨f.2, afb.size⟩)

/-- The method `AioFileBackend.Close` (aiofile.go, lines 71-73). -/
def AioFileBackend.Close (E : Engine σ) (afb : AioFileBackend σ) :
    Option GoError × AioFileBackend σ :=
  let c := E.Close afb.aio
  (c.1, ⟨c.2, afb.size⟩)

/-- The method `AioFileBackend.Geometry` (aiofile.go, lines 76-78). -/
def AioFileBackend.Geometry (afb : AioFileBackend σ) :
    (Nat × Nat × Nat × Nat × Option GoError) × AioFileBackend σ :=
  ((afb.size, 1, 32 * 1024, 128 * 1024 * 1024, none), afb)

/-- The method `AioFileBackend.HasFua` (aiofile.go, lines 81-83). -/
def AioFileBackend.HasFua (afb : AioFileBackend σ) : Bool × AioFileBackend σ :=
  (false, afb)

/-- The method `AioFileBackend.HasFlush` (aiofile.go, lines 86-88). -/
def AioFileBackend.HasFlush (afb : AioFileBackend σ) : Bool × AioFileBackend σ :=
  (false, afb)

/-- The constructor `NewAioFileBackend` (aiofile.go, lines 91-114), run in the
state `w`.  The result is Go's `(Backend, error)`, `none` standing for a `nil`
backend, together with the state when the call returns. -/
def NewAioFileBackend (H : Host σ) (ec : ExportConfig) (w : σ) :
    (Option (AioFileBackend σ) × Option GoError) × σ :=
  let perms := if ec.ReadOnly then H.O_RDONLY else H.O_RDWR
  let t := H.isTrue (ec.param "sync")
  match t.2 with
  | some err => ((none, some err), w)
  | none =>
    let perms := if t.1 then perms ||| H.O_SYNC else perms
    let o := H.NewAIO (ec.param "path") perms 0o666 w
    match o.1 with
    | some err => ((none, some err), o.2)
    | none =>
      let st := H.Stat o.2
      match st.1.2 with
      | some err => ((none, some err), (H.aio.Close st.2).2)
      | none => ((some ⟨st.2, uint64 st.1.1⟩, none), st.2)

/-! ## Observing the calls a method makes -/

/-- One call as the engine saw it: the call, the error it returned and the
engine's state right after it. -/
structure Event (σ : Type) where
  call : Call
  err : Option GoError
  post : σ
  deriving DecidableEq, Repr

/-- The engine `E` with a log: every call behaves as in `E` and appends its
event to the log. -/
def Engine.traced (E : Engine σ) : Engine (σ × List (Event σ)) where
  Wait := fun t =>
    let r := E.Wait t.1
    (r.1, (r.2, t.2 ++ [⟨Call.Wait, r.1, r.2⟩]))
  WriteAt := fun b offset t =>
    let r := E.WriteAt b offset t.1
    (r.1, (r.2, t.2 ++ [⟨Call.WriteAt b offset, r.1.2, r.2⟩]))
  ReadAt := fun b offset t =>
    let r := E.ReadAt b offset t.1
    (r.1, (r.2, t.2 ++ [⟨Call.ReadAt b offset, r.1.2, r.2⟩]))
  WaitFor := fun id t =>
    let r := E.WaitFor id t.1
    (r.1, (r.2, t.2 ++ [⟨Call.WaitFor id, r.1.2, r.2⟩]))
  Flush := fun t =>
    let r := E.Flush t.1
    (r.1, (r.2, t.2 ++ [⟨Call.Flush, r.1, r.2⟩]))
  Close := fun t =>
    let r := E.Close t.1
    (r.1, (r.2, t.2 ++ [⟨Call.Close, r.1, r.2⟩]))
  buffer := fun id t => E.buffer id t.1

/-- The host `H` with a log, as `Engine.traced`.  `isTrue` is a pure function of
its argument and is not logged. -/
def Host.traced (H : Host σ) : Host (σ × List (Event σ)) where
  O_RDONLY := H.O_RDONLY
  O_RDWR := H.O_RDWR
  O_SYNC := H.O_SYNC
  isTrue := H.isTrue
  NewAIO := fun path perms mode t =>
    let r := H.NewAIO path perms mode t.1
    (r.1, (r.2, t.2 ++ [⟨Call.NewAIO path perms mode, r.1, r.2⟩]))
  Stat := fun t =>
    let r := H.Stat t.1
    (r.1, (r.2, t.2 ++ [⟨Call.Stat, r.1.2, r.2⟩]))
  aio := H.aio.traced

/-- A call of one method of the `Backend` interface. -/
inductive Op where
  | WriteAt (b : List Byte) (offset : Int) (fua : Bool)
  | ReadAt (b : List Byte) (offset : Int)
  | TrimAt (length : Int) (offset : Int)
  | Flush
  | Close
  | Geometry
  | HasFua
  | HasFlush
  deriving DecidableEq, Repr

/-- The backend after one method call. -/
def AioFileBackend.step (E : Engine σ) (afb : AioFileBackend σ) : Op → AioFileBackend σ
  | Op.WriteAt b offset fua => (afb.WriteAt E b offset fua).2
  | Op.ReadAt b offset => (afb.ReadAt E b offset).2.2
  | Op.TrimAt length offset => (afb.TrimAt length offset).2
  | Op.Flush => (afb.Flush E).2
  | Op.Close => (afb.Close E).2
  | Op.Geometry => afb.Geometry.2
  | Op.HasFua => afb.HasFua.2
  | Op.HasFlush => afb.HasFlush.2

/-- The backend after a sequence of method calls made one at a time. -/
def AioFileBackend.run (E : Engine σ) (afb : AioFileBackend σ) (ops : List Op) :
    AioFileBackend σ :=
  ops.foldl (AioFileBackend.step E) afb

/-! ## A reference engine over a byte array

The engine and the operating system are outside the repository.  For the
properties that speak of stored data and of pending requests they are modelled
by a byte array with a list of pending requests; a script of faults decides
which calls fail. -/

/-- How the next call of the reference engine ends: it succeeds, it fails and
changes nothing, or it fails and drops the requests it was about. -/
inductive Fault where
  | ok
  | fail
  | abort
  deriving DecidableEq, Repr

/-- A pending request of the reference engine. -/
structure Request where
  id : Nat
  isWrite : Bool
  buf : List Byte
  offset : Int
  deriving DecidableEq, Repr

/-- The state of the reference engine: the stored bytes, the pending requests,
the slices handed over with each request, the next request id, and the faults
still to come (none left: every call succeeds). -/
structure FileAio where
  data : List Byte
  pending : List Request
  bufs : List (Nat × List Byte)
  nextId : Nat
  faults : List Fault
  deriving DecidableEq, Repr

/-- Storing `buf` at offset `off`; a write past the end extends the array with
zeroes. -/
def writeBytes (data : List Byte) (off : Nat) (buf : List Byte) : List Byte :=
  data.take off ++ List.replicate (off - data.length) 0 ++ buf ++ data.drop (off + buf.length)

/-- The at most `n` bytes stored from offset `off` on. -/
def readBytes (data : List Byte) (off n : Nat) : List Byte :=
  (data.drop off).take n

/-- Completion of one request: a write stores its buffer at its offset, a read
copies the bytes at its offset into its slice. -/
def FileAio.complete (s : FileAio) (r : Request) : (Int × Option GoError) × FileAio :=
  if r.offset < 0 then ((0, some "EINVAL"), s)
  else if r.isWrite then
    ((r.buf.length, none), { s with data := writeBytes s.data r.offset.toNat r.buf })
  else
    let got := readBytes s.data r.offset.toNat r.buf.length
    ((got.length, none), { s with bufs := (r.id, got ++ r.buf.drop got.length) :: s.bufs })

/-- Submission of a request: it becomes pending under a fresh id. -/
def FileAio.submit (isWrite : Bool) (b : List Byte) (offset : Int) (s : FileAio) :
    (Nat × Option GoError) × FileAio :=
  match s.faults.headD Fault.ok with
  | Fault.ok =>
    ((s.nextId, none),
      { s with
        pending := s.pending ++ [⟨s.nextId, isWrite, b, offset⟩]
        bufs := (s.nextId, b) :: s.bufs
        nextId := s.nextId + 1
        faults := s.faults.tail })
  | _ => ((0, some "EIO"), { s with faults := s.faults.tail })

/-- Waiting for every pending request: all of them complete, in order. -/
def FileAio.wait (s : FileAio) : Option GoError × FileAio :=
  match s.faults.headD Fault.ok with
  | Fault.ok =>
    (none,
      { s.pending.foldl (fun t r => (t.complete r).2) s with
        pending := []
        faults := s.faults.tail })
  | Fault.fail => (some "EIO", { s with faults := s.faults.tail })
  | Fault.abort => (some "EIO", { s with pending := [], faults := s.faults.tail })

/-- Waiting for request `id`: it completes and is no longer pending. -/
def FileAio.waitFor (id : Nat) (s : FileAio) : (Int × Option GoError) × FileAio :=
  match s.faults.headD Fault.ok with
  | Fault.ok =>
    match s.pending.find? (fun r => r.id == id) with
    | none => ((0, some "ENOENT"), { s with faults := s.faults.tail })
    | some r =>
      FileAio.complete
        { s with pending := s.pending.filter (fun q => q.id != id), faults := s.faults.tail } r
  | Fault.fail => ((0, some "EIO"), { s with faults := s.faults.tail })
  | Fault.abort =>
    ((0, some "EIO"),
      { s with pending := s.pending.filter (fun q => q.id != id), faults := s.faults.tail })

/-- A call that touches neither the data nor the pending requests. -/
def FileAio.sync (s : FileAio) : Option GoError × FileAio :=
  match s.faults.headD Fault.ok with
  | Fault.ok => (none, { s with faults := s.faults.tail })
  | _ => (some "EIO", { s with faults := s.faults.tail })

/-- The reference engine. -/
def fileEngine : Engine FileAio where
  Wait := FileAio.wait
  WriteAt := FileAio.submit true
  ReadAt := FileAio.submit false
  WaitFor := FileAio.waitFor
  Flush := FileAio.sync
  Close := fun s => ((FileAio.sync s).1, { (FileAio.sync s).2 with pending := [] })
  buffer := fun id s => (s.bufs.lookup id).getD []

/-- Modelled from the spec: `isTrue`, the repository's parser of a boolean-like
string, which is declared outside `aiofile.go`.  The spec has a "sync" that
parses as true request synchronous writes, an absent or false one add nothing,
and one that is "not a recognizable boolean string", such as "notabool", fail
with a `ConfigError`. -/
def isTrue (v : String) : Bool × Option GoError :=
  if v = "true" then (true, none)
  else if v = "false" ∨ v = "" then (false, none)
  else (false, some "ConfigError")

/-- The reference host: one resource, whose bytes are `data`; the flags are
those of linux/amd64; opening the empty path fails. -/
def fileHost : Host FileAio where
  O_RDONLY := 0
  O_RDWR := 2
  O_SYNC := 0x101000
  isTrue := isTrue
  NewAIO := fun path _ _ s =>
    if path = "" then (some "ENOENT", (FileAio.sync s).2) else FileAio.sync s
  Stat := fun s => ((if (FileAio.sync s).1 = none then (s.data.length : Int) else 0,
    (FileAio.sync s).1), (FileAio.sync s).2)
  aio := fileEngine

/-- A reference engine over `data` with nothing pending and the fault script
`faults`. -/
def FileAio.fresh (data : List Byte) (faults : List Fault) : FileAio :=
  ⟨data, [], [], 0, faults⟩

/-! ## The single-outstanding-request discipline -/

/-- Whether the event is a `Wait` that returned nil and left nothing pending,
`pend` counting the pending requests of a state. -/
def okWait (pend : σ → Nat) (e : Event σ) : Bool :=
  e.call == Call.Wait && e.err.isNone && pend e.post == 0

/-- Whether every submission in a log comes right after such a `Wait`; `prev`
says whether the event before the log was one. -/
def guarded (pend : σ → Nat) : Bool → List (Event σ) → Bool
  | _, [] => true
  | prev, e :: es => (!e.call.isSubmit || prev) && guarded pend (okWait pend e) es

/-- What the discipline needs of an engine whose pending requests `pend`
counts: a `Wait` that returns nil leaves none pending, a submission adds at most
one, and no other call adds any. -/
structure PendingLaws (E : Engine σ) (pend : σ → Nat) : Prop where
  wait_ok : ∀ s, (E.Wait s).1 = none → pend (E.Wait s).2 = 0
  wait_le : ∀ s, pend (E.Wait s).2 ≤ pend s
  writeAt_le : ∀ b o s, pend (E.WriteAt b o s).2 ≤ pend s + 1
  readAt_le : ∀ b o s, pend (E.ReadAt b o s).2 ≤ pend s + 1
  waitFor_le : ∀ id s, pend (E.WaitFor id s).2 ≤ pend s
  flush_le : ∀ s, pend (E.Flush s).2 ≤ pend s

/-! ## The call sequence of `WriteAt` and `ReadAt` -/

/-- C1: when the engine's `Wait`, the submission `WriteAt(b, offset)`, the
`WaitFor` of the id that submission returned and, for `fua = true`, the `Flush`
all succeed, `AioFileBackend.WriteAt` makes exactly these calls in this order,
`Flush` being made if and only if `fua` is true, and returns `(n, nil)` with `n`
the count `WaitFor` reported. -/
theorem writeAt_call_sequence (E : Engine σ) (s s1 s2 s3 : σ) (log : List (Event σ))
    (size : Nat) (b : List Byte) (offset : Int) (fua : Bool) (id : Nat) (n : Int)
    (hWait : E.Wait s = (none, s1))
    (hSubmit : E.WriteAt b offset s1 = ((id, none), s2))
    (hDone : E.WaitFor id s2 = ((n, none), s3))
    (hFlush : fua = true → (E.Flush s3).1 = none) :
    (AioFileBackend.WriteAt E.traced ⟨(s, log), size⟩ b offset fua).1 = (n, none) ∧
    (AioFileBackend.WriteAt E.traced ⟨(s, log), size⟩ b offset fua).2.aio.2 =
      log ++ [⟨Call.Wait, none, s1⟩, ⟨Call.WriteAt b offset, none, s2⟩,
          ⟨Call.WaitFor id, none, s3⟩] ++
        (if fua then [⟨Call.Flush, none, (E.Flush s3).2⟩] else []) ∧
    (AioFileBackend.WriteAt E ⟨s, size⟩ b offset fua).1 = (n, none) := by
  cases fua with
  | false => simp [AioFileBackend.WriteAt, Engine.traced, hWait, hSubmit, hDone]
  | true =>
    have hf := hFlush rfl
    simp [AioFileBackend.WriteAt, Engine.traced, hWait, hSubmit, hDone, hf]

/-- C1 at a concrete input: a three-byte write with `fua = true` on the reference
engine makes the four calls and returns `(3, nil)`. -/
theorem writeAt_call_sequence_witness :
    (AioFileBackend.WriteAt fileEngine.traced
        ⟨(FileAio.fresh [0, 0, 0, 0, 0, 0, 0, 0] [], []), 8⟩ [1, 2, 3] 2 true).1 = (3, none) ∧
    (AioFileBackend.WriteAt fileEngine.traced
        ⟨(FileAio.fresh [0, 0, 0, 0, 0, 0, 0, 0] [], []), 8⟩ [1, 2, 3] 2 true).2.aio.2.map
      Event.call = [Call.Wait, Call.WriteAt [1, 2, 3] 2, Call.WaitFor 0, Call.Flush] := by
  have h := writeAt_call_sequence fileEngine (FileAio.fresh [0, 0, 0, 0, 0, 0, 0, 0] [])
    _ _ _ [] 8 [1, 2, 3] 2 true 0 3 rfl rfl rfl (fun _ => rfl)
  refine ⟨h.1, ?_⟩
  rw [h.2.1]
  rfl

/-- C2: when the engine's `Wait`, the submission `ReadAt(b, offset)` and the
`WaitFor` of the id that submission returned all succeed,
`AioFileBackend.ReadAt` makes exactly these three calls in this order, none of
them a `Flush`, and returns `(n, nil)` with `n` the count `WaitFor` reported. -/
theorem readAt_call_sequence (E : Engine σ) (s s1 s2 s3 : σ) (log : List (Event σ))
    (size : Nat) (b : List Byte) (offset : Int) (id : Nat) (n : Int)
    (hWait : E.Wait s = (none, s1))
    (hSubmit : E.ReadAt b offset s1 = ((id, none), s2))
    (hDone : E.WaitFor id s2 = ((n, none), s3)) :
    (AioFileBackend.ReadAt E.traced ⟨(s, log), size⟩ b offset).1 = (n, none) ∧
    (AioFileBackend.ReadAt E.traced ⟨(s, log), size⟩ b offset).2.2.aio.2 =
      log ++ [⟨Call.Wait, none, s1⟩, ⟨Call.ReadAt b offset, none, s2⟩,
          ⟨Call.WaitFor id, none, s3⟩] ∧
    (∀ e ∈ (AioFileBackend.ReadAt E.traced ⟨(s, []), size⟩ b offset).2.2.aio.2,
      e.call ≠ Call.Flush) ∧
    (AioFileBackend.ReadAt E ⟨s, size⟩ b offset).1 = (n, none) := by
  simp [AioFileBackend.ReadAt, Engine.traced, hWait, hSubmit, hDone]

/-- C2 at a concrete input: a three-byte read on the reference engine makes the
three calls and returns `(3, nil)`. -/
theorem readAt_call_sequence_witness :
    (AioFileBackend.ReadAt fileEngine.traced
        ⟨(FileAio.fresh [5, 6, 7, 8, 9] [], []), 5⟩ [0, 0, 0] 1).1 = (3, none) ∧
    (AioFileBackend.ReadAt fileEngine.traced
        ⟨(FileAio.fresh [5, 6, 7, 8, 9] [], []), 5⟩ [0, 0, 0] 1).2.2.aio.2.map
      Event.call = [Call.Wait, Call.ReadAt [0, 0, 0] 1, Call.WaitFor 0] := by
  have h := readAt_call_sequence fileEngine (FileAio.fresh [5, 6, 7, 8, 9] [])
    _ _ _ [] 5 [0, 0, 0] 1 0 3 rfl rfl rfl
  refine ⟨h.1, ?_⟩
  rw [h.2.1]
  rfl

/-! ## Errors -/

/-- Tracing changes neither what `WriteAt` returns nor what it does to the
engine. -/
theorem writeAt_traced_eq (E : Engine σ) (s : σ) (log : List (Event σ)) (size : Nat)
    (b : List Byte) (offset : Int) (fua : Bool) :
    (AioFileBackend.WriteAt E.traced ⟨(s, log), size⟩ b offset fua).1 =
      (AioFileBackend.WriteAt E ⟨s, size⟩ b offset fua).1 ∧
    (AioFileBackend.WriteAt E.traced ⟨(s, log), size⟩ b offset fua).2.aio.1 =
      (AioFileBackend.WriteAt E ⟨s, size⟩ b offset fua).2.aio := by
  simp only [AioFileBackend.WriteAt, Engine.traced]
  repeat' split
  all_goals simp_all

/-- Tracing changes neither what `ReadAt` returns nor what it does to the
engine. -/
theorem readAt_traced_eq (E : Engine σ) (s : σ) (log : List (Event σ)) (size : Nat)
    (b : List Byte) (offset : Int) :
    (AioFileBackend.ReadAt E.traced ⟨(s, log), size⟩ b offset).1 =
      (AioFileBackend.ReadAt E ⟨s, size⟩ b offset).1 ∧
    (AioFileBackend.ReadAt E.traced ⟨(s, log), size⟩ b offset).2.1 =
      (AioFileBackend.ReadAt E ⟨s, size⟩ b offset).2.1 ∧
    (AioFileBackend.ReadAt E.traced ⟨(s, log), size⟩ b offset).2.2.aio.1 =
      (AioFileBackend.ReadAt E ⟨s, size⟩ b offset).2.2.aio := by
  simp only [AioFileBackend.ReadAt, Engine.traced]
  repeat' split
  all_goals simp_all

/-- C3: for `WriteAt` (`w`) and `ReadAt` (`r`) over any engine, started with an
empty log: the call returns an error if and only if one of the engine calls it
made returned one; in that case it returns the count 0 and that very error, the
failing call is the last call made and every call before it succeeded; the
calls made are an initial part of `Wait, submit, WaitFor, Flush` (of
`Wait, submit, WaitFor` for `ReadAt`), so no call is made twice.  In
particular, when the write completes with `n` bytes and the `Flush` after it
fails with `err`, `WriteAt` with `fua = true` returns `(0, err)`. -/
theorem error_propagation (E : Engine σ) (s : σ) (size : Nat) (b : List Byte)
    (offset : Int) (fua : Bool) :
    let w := AioFileBackend.WriteAt E.traced ⟨(s, []), size⟩ b offset fua
    let r := AioFileBackend.ReadAt E.traced ⟨(s, []), size⟩ b offset
    ((w.1.2 ≠ none ↔ ∃ e ∈ w.2.aio.2, e.err ≠ none) ∧
      (∀ err, w.1.2 = some err → w.1.1 = 0 ∧ ∃ pre e, w.2.aio.2 = pre ++ [e] ∧
        e.err = some err ∧ ∀ e' ∈ pre, e'.err = none) ∧
      (∃ id, w.2.aio.2.map Event.call <+:
        [Call.Wait, Call.WriteAt b offset, Call.WaitFor id, Call.Flush])) ∧
    ((r.1.2 ≠ none ↔ ∃ e ∈ r.2.2.aio.2, e.err ≠ none) ∧
      (∀ err, r.1.2 = some err → r.1.1 = 0 ∧ ∃ pre e, r.2.2.aio.2 = pre ++ [e] ∧
        e.err = some err ∧ ∀ e' ∈ pre, e'.err = none) ∧
      (∃ id, r.2.2.aio.2.map Event.call <+:
        [Call.Wait, Call.ReadAt b offset, Call.WaitFor id])) ∧
    (∀ (s1 s2 s3 s4 : σ) (id : Nat) (n : Int) (err : GoError),
      E.Wait s = (none, s1) → E.WriteAt b offset s1 = ((id, none), s2) →
      E.WaitFor id s2 = ((n, none), s3) → E.Flush s3 = (some err, s4) →
      AioFileBackend.WriteAt E ⟨s, size⟩ b offset true = ((0, some err), ⟨s4, size⟩)) := by
  intro w r
  refine ⟨?_, ?_, ?_⟩
  · simp only [w, AioFileBackend.WriteAt, Engine.traced]
    repeat' split
    all_goals simp_all
    all_goals first
      | exact ⟨[], _, rfl, by simp⟩
      | exact ⟨[_], _, rfl, by simp⟩
      | exact ⟨[_, _], _, rfl, by simp⟩
      | exact ⟨[_, _, _], _, rfl, by simp⟩
  · simp only [r, AioFileBackend.ReadAt, Engine.traced]
    repeat' split
    all_goals simp_all
    all_goals first
      | exact ⟨[], _, rfl, by simp⟩
      | exact ⟨[_], _, rfl, by simp⟩
      | exact ⟨[_, _], _, rfl, by simp⟩
  · intro s1 s2 s3 s4 id n err h1 h2 h3 h4
    simp [AioFileBackend.WriteAt, h1, h2, h3, h4]

/-- C3 at a concrete input: on the reference engine whose fourth call fails, a
three-byte write with `fua = true` completes and then returns `(0, "EIO")`,
the error of the `Flush`. -/
theorem error_propagation_witness :
    AioFileBackend.WriteAt fileEngine
        ⟨FileAio.fresh [0, 0, 0, 0] [Fault.ok, Fault.ok, Fault.ok, Fault.fail], 4⟩
        [1, 2, 3] 0 true =
      ((0, some "EIO"), ⟨⟨[1, 2, 3, 0], [], [(0, [1, 2, 3])], 1, []⟩, 4⟩) :=
  (error_propagation fileEngine
    (FileAio.fresh [0, 0, 0, 0] [Fault.ok, Fault.ok, Fault.ok, Fault.fail]) 4 [1, 2, 3] 0
    true).2.2 _ _ _ _ 0 3 "EIO" rfl rfl rfl rfl

/-! ## The methods that make no call -/

/-- C6: `TrimAt(length, offset)` returns `(length, nil)` for every `length` and
`offset`, leaves the backend as it was, makes no engine call (the log of a
traced engine is unchanged) and leaves the data of the reference engine
unchanged; a `ReadAt` made after it returns what the same `ReadAt` returns
without it. -/
theorem trimAt_noop (E : Engine σ) (afb : AioFileBackend σ) (length offset : Int) :
    afb.TrimAt length offset = ((length, none), afb) ∧
    (∀ (s : σ) (log : List (Event σ)) (size : Nat),
      ((⟨(s, log), size⟩ : AioFileBackend (σ × List (Event σ))).TrimAt length
        offset).2.aio.2 = log) ∧
    (∀ m : AioFileBackend FileAio, (m.TrimAt length offset).2.aio.data = m.aio.data) ∧
    (∀ (b : List Byte) (off : Int),
      AioFileBackend.ReadAt E (afb.TrimAt length offset).2 b off =
        AioFileBackend.ReadAt E afb b off) := by
  simp [AioFileBackend.TrimAt]

/-- C8: `HasFua` and `HasFlush` return false for every backend, whatever it was
constructed from and whatever its state, and leave it as it was, although
`Flush()` does call the engine's `Flush` and `WriteAt` with `fua = true`, once
the write has completed, does so too. -/
theorem hasFua_hasFlush_false (E : Engine σ) (afb : AioFileBackend σ) :
    afb.HasFua = (false, afb) ∧ afb.HasFlush = (false, afb) ∧
    (∀ (s : σ) (log : List (Event σ)) (size : Nat),
      (AioFileBackend.Flush E.traced ⟨(s, log), size⟩).2.aio.2 =
        log ++ [⟨Call.Flush, (E.Flush s).1, (E.Flush s).2⟩]) ∧
    (∀ (s s1 s2 s3 : σ) (size : Nat) (b : List Byte) (offset : Int) (id : Nat) (n : Int),
      E.Wait s = (none, s1) → E.WriteAt b offset s1 = ((id, none), s2) →
      E.WaitFor id s2 = ((n, none), s3) →
      ∃ e ∈ (AioFileBackend.WriteAt E.traced ⟨(s, []), size⟩ b offset true).2.aio.2,
        e.call = Call.Flush) := by
  refine ⟨rfl, rfl, ?_, ?_⟩
  · intro s log size
    simp [AioFileBackend.Flush, Engine.traced]
  · intro s s1 s2 s3 size b offset id n h1 h2 h3
    simp only [AioFileBackend.WriteAt, Engine.traced]
    repeat' split
    all_goals simp_all

/-! ## Geometry -/

/-- No method changes the size field. -/
theorem step_size (E : Engine σ) (afb : AioFileBackend σ) (op : Op) :
    (afb.step E op).size = afb.size := by
  cases op <;>
    simp only [AioFileBackend.step, AioFileBackend.WriteAt, AioFileBackend.ReadAt,
      AioFileBackend.TrimAt, AioFileBackend.Flush, AioFileBackend.Close,
      AioFileBackend.Geometry, AioFileBackend.HasFua, AioFileBackend.HasFlush]
  all_goals repeat' split
  all_goals rfl

/-- No sequence of method calls changes the size field. -/
theorem run_size (E : Engine σ) (ops : List Op) (afb : AioFileBackend σ) :
    (afb.run E ops).size = afb.size := by
  induction ops generalizing afb with
  | nil => rfl
  | cons op ops ih =>
    have h := ih (afb.step E op)
    rw [step_size] at h
    simpa [AioFileBackend.run] using h

/-- C7: when `NewAioFileBackend` succeeds over a resource whose size, as `Stat`
reports it at construction, is `sz`, then after every sequence of `WriteAt`,
`ReadAt`, `TrimAt`, `Flush` and `Close` calls (and of the other methods),
whatever the engine does in them, `Geometry()` returns
`(sz, 1, 32768, 134217728, nil)`. -/
theorem geometry_fixed (H : Host σ) (ec : ExportConfig) (w s1 s2 : σ) (sync : Bool)
    (sz : Nat)
    (hTrue : H.isTrue (ec.param "sync") = (sync, none))
    (hOpen : H.NewAIO (ec.param "path")
      (if sync then (if ec.ReadOnly then H.O_RDONLY else H.O_RDWR) ||| H.O_SYNC
        else (if ec.ReadOnly then H.O_RDONLY else H.O_RDWR)) 0o666 w = (none, s1))
    (hStat : H.Stat s1 = (((sz : Int), none), s2))
    (hsz : sz < 2 ^ 63) :
    ∃ afb, (NewAioFileBackend H ec w).1 = (some afb, none) ∧
      ∀ ops : List Op,
        (afb.run H.aio ops).Geometry.1 = (sz, 1, 32768, 134217728, none) := by
  refine ⟨⟨s2, sz⟩, ?_, ?_⟩
  · have h64 : ((sz : Int) % 18446744073709551616).toNat = sz := by omega
    simp [NewAioFileBackend, hTrue, hOpen, hStat, uint64, h64]
  · intro ops
    simp [AioFileBackend.Geometry, run_size]

/-- C7 at a concrete input: a backend constructed over three bytes reports the
size 3 after a write at offset 10, a failed flush, a trim, a read and a
close. -/
theorem geometry_fixed_witness :
    ∃ afb, (NewAioFileBackend fileHost ⟨false, [("path", "/dev/nbd0")]⟩
        (FileAio.fresh [1, 2, 3] [])).1 = (some afb, none) ∧
      (afb.run fileEngine [Op.WriteAt [7, 7] 10 true, Op.Flush, Op.TrimAt 5 0,
        Op.ReadAt [0] 1, Op.Close]).Geometry.1 = (3, 1, 32768, 134217728, none) := by
  obtain ⟨afb, h1, h2⟩ := geometry_fixed fileHost ⟨false, [("path", "/dev/nbd0")]⟩
    (FileAio.fresh [1, 2, 3] []) _ _ false 3 rfl rfl rfl (by norm_num)
  exact ⟨afb, h1, h2 _⟩

/-! ## Construction -/

/-- C9: when `isTrue` accepts the "sync" parameter with the value `sync`, the
one call `NewAioFileBackend` makes to open a resource is
`NewAIO(DriverParameters["path"], perms, 0666)` with `perms` equal to
`O_RDONLY` for a read-only configuration and to `O_RDWR` otherwise, or-ed with
`O_SYNC` if and only if `sync` is true; the calls after it are `Stat` and
`Close` only. -/
theorem open_flags (H : Host σ) (ec : ExportConfig) (w : σ) (sync : Bool)
    (hTrue : H.isTrue (ec.param "sync") = (sync, none)) :
    ∃ rest, (NewAioFileBackend H.traced ec (w, [])).2.2.map Event.call =
        Call.NewAIO (ec.param "path")
          (if sync then (if ec.ReadOnly then H.O_RDONLY else H.O_RDWR) ||| H.O_SYNC
            else (if ec.ReadOnly then H.O_RDONLY else H.O_RDWR)) 0o666 :: rest ∧
      ∀ c ∈ rest, c = Call.Stat ∨ c = Call.Close := by
  simp only [NewAioFileBackend, Host.traced, Engine.traced, hTrue]
  repeat' split
  all_goals simp_all

/-- C9 at a concrete input: a read-only configuration with "sync" set to "true"
opens its path with `O_RDONLY|O_SYNC`. -/
theorem open_flags_witness :
    ∃ rest, (NewAioFileBackend fileHost.traced
        ⟨true, [("path", "/dev/nbd0"), ("sync", "true")]⟩
        (FileAio.fresh [1, 2, 3] [], [])).2.2.map Event.call =
        Call.NewAIO "/dev/nbd0" (0 ||| 0x101000) 0o666 :: rest ∧
      ∀ c ∈ rest, c = Call.Stat ∨ c = Call.Close :=
  open_flags fileHost ⟨true, [("path", "/dev/nbd0"), ("sync", "true")]⟩
    (FileAio.fresh [1, 2, 3] []) true rfl

/-- C10: `NewAioFileBackend`, started with an empty log, returns a backend and
a nil error if and only if `isTrue` accepts the "sync" parameter, `NewAIO`
opens the resource and `Stat` succeeds.  Otherwise it returns a nil backend
and the error of the first of these steps that fails: when `isTrue` fails no
call at all is made; when `NewAIO` fails it is the only call; when `Stat`
fails the calls are `NewAIO`, `Stat` and one `Close`.  When all succeed the
calls are `NewAIO` and `Stat`, and the backend holds the size `Stat` gave. -/
theorem newAioFileBackend_result (H : Host σ) (ec : ExportConfig) (w : σ) :
    let r := NewAioFileBackend H.traced ec (w, [])
    let t := H.isTrue (ec.param "sync")
    let perms := if t.1 then (if ec.ReadOnly then H.O_RDONLY else H.O_RDWR) ||| H.O_SYNC
      else (if ec.ReadOnly then H.O_RDONLY else H.O_RDWR)
    let o := H.NewAIO (ec.param "path") perms 0o666 w
    let st := H.Stat o.2
    ((∃ afb, r.1 = (some afb, none)) ↔ (t.2 = none ∧ o.1 = none ∧ st.1.2 = none)) ∧
    (∀ err, t.2 = some err → r.1 = (none, some err) ∧ r.2.2 = []) ∧
    (t.2 = none → ∀ err, o.1 = some err → r.1 = (none, some err) ∧
      r.2.2.map Event.call = [Call.NewAIO (ec.param "path") perms 0o666]) ∧
    (t.2 = none → o.1 = none → ∀ err, st.1.2 = some err → r.1 = (none, some err) ∧
      r.2.2.map Event.call =
        [Call.NewAIO (ec.param "path") perms 0o666, Call.Stat, Call.Close]) ∧
    (t.2 = none → o.1 = none → st.1.2 = none →
      (∃ afb, r.1 = (some afb, none) ∧ afb.size = uint64 st.1.1 ∧ afb.aio.1 = st.2) ∧
      r.2.2.map Event.call = [Call.NewAIO (ec.param "path") perms 0o666, Call.Stat]) := by
  intro r t perms o st
  simp only [r, t, perms, o, st, NewAioFileBackend, Host.traced, Engine.traced]
  repeat' split
  all_goals simp_all

/-- C10 at a concrete input: with "sync" set to "notabool" the constructor
returns a nil backend and the error of `isTrue`, and makes no call. -/
theorem newAioFileBackend_result_witness :
    (NewAioFileBackend fileHost.traced ⟨false, [("path", "/dev/nbd0"), ("sync", "notabool")]⟩
        (FileAio.fresh [1, 2, 3] [], [])).1 = (none, some "ConfigError") ∧
    (NewAioFileBackend fileHost.traced ⟨false, [("path", "/dev/nbd0"), ("sync", "notabool")]⟩
        (FileAio.fresh [1, 2, 3] [], [])).2.2 = [] :=
  (newAioFileBackend_result fileHost ⟨false, [("path", "/dev/nbd0"), ("sync", "notabool")]⟩
    (FileAio.fresh [1, 2, 3] [])).2.1 "ConfigError" rfl

/-! ## Round trip on the reference engine -/

/-- Reading back what was just stored. -/
theorem readBytes_writeBytes (data : List Byte) (off : Nat) (b : List Byte) :
    readBytes (writeBytes data off b) off b.length = b := by
  have hp : (data.take off ++ List.replicate (off - data.length) 0).length = off := by
    simp
    omega
  simp only [readBytes, writeBytes, List.append_assoc]
  rw [← List.append_assoc, List.drop_left' hp, List.take_left' rfl]

/-- A store inside the array keeps its length. -/
theorem writeBytes_length (data : List Byte) (off : Nat) (b : List Byte)
    (h : off + b.length ≤ data.length) : (writeBytes data off b).length = data.length := by
  simp [writeBytes]
  omega

/-- Completing requests touches neither the pending list, the next id nor the
fault script. -/
theorem foldl_complete_frame (l : List Request) (s : FileAio) :
    (l.foldl (fun t r => (t.complete r).2) s).pending = s.pending ∧
    (l.foldl (fun t r => (t.complete r).2) s).nextId = s.nextId ∧
    (l.foldl (fun t r => (t.complete r).2) s).faults = s.faults := by
  induction l generalizing s with
  | nil => simp
  | cons r l ih =>
    simp only [List.foldl_cons]
    obtain ⟨h1, h2, h3⟩ := ih (s.complete r).2
    rw [h1, h2, h3]
    unfold FileAio.complete
    repeat' split
    all_goals simp

/-- C4: on the reference engine (a byte array; a completed write stores the
buffer at the offset, a completed read copies the bytes at the offset) with no
fault to come, for `0 ≤ offset` and `offset + len(b)` within the array,
`WriteAt(b, offset, fua)` returns `(len(b), nil)` and the `ReadAt` of a
`len(b)`-byte slice at the same offset made right after it returns
`(len(b), nil)` and fills the slice with exactly `b`, for either `fua`; with
nothing pending before, the array keeps its length. -/
theorem write_read_roundtrip (s : FileAio) (size : Nat) (b rb : List Byte) (offset : Int)
    (fua : Bool) (hf : s.faults = []) (h0 : 0 ≤ offset)
    (hlen : offset + b.length ≤ s.data.length) (hrb : rb.length = b.length) :
    (AioFileBackend.WriteAt fileEngine ⟨s, size⟩ b offset fua).1 = ((b.length : Int), none) ∧
    (AioFileBackend.ReadAt fileEngine
      (AioFileBackend.WriteAt fileEngine ⟨s, size⟩ b offset fua).2 rb offset).1 =
        ((b.length : Int), none) ∧
    (AioFileBackend.ReadAt fileEngine
      (AioFileBackend.WriteAt fileEngine ⟨s, size⟩ b offset fua).2 rb offset).2.1 = b ∧
    (s.pending = [] →
      (AioFileBackend.WriteAt fileEngine ⟨s, size⟩ b offset fua).2.aio.data.length =
        s.data.length) := by
  obtain ⟨p1, p2, p3⟩ := foldl_complete_frame s.pending s
  have hneg : ¬ offset < 0 := by omega
  have hl : offset.toNat + b.length ≤ s.data.length := by omega
  refine ⟨?_, ?_, ?_, ?_⟩
  · cases fua <;>
    simp [AioFileBackend.WriteAt, fileEngine, FileAio.wait,
      FileAio.submit, FileAio.waitFor, FileAio.sync, FileAio.complete, hf, p2, p3, hneg]
  · cases fua <;>
    simp [AioFileBackend.WriteAt, AioFileBackend.ReadAt, fileEngine, FileAio.wait,
      FileAio.submit, FileAio.waitFor, FileAio.sync, FileAio.complete, hf, p2, p3, hneg,
      readBytes_writeBytes, hrb]
  · cases fua <;>
    simp [AioFileBackend.WriteAt, AioFileBackend.ReadAt, fileEngine, FileAio.wait,
      FileAio.submit, FileAio.waitFor, FileAio.sync, FileAio.complete, hf, p2, p3, hneg,
      readBytes_writeBytes, hrb]
  · intro hp
    cases fua <;>
    simp [AioFileBackend.WriteAt, fileEngine, FileAio.wait,
      FileAio.submit, FileAio.waitFor, FileAio.sync, FileAio.complete, hf, hp, hneg,
      writeBytes_length _ _ _ hl]

/-- C4 at the scenario of the specification: over 1 MiB of zeroes, writing 32
bytes of `0xAB` at offset 100 with `fua = false` returns `(32, nil)` and
reading 32 bytes at offset 100 yields the 32 bytes of `0xAB`. -/
theorem write_read_roundtrip_witness :
    (AioFileBackend.WriteAt fileEngine ⟨FileAio.fresh (List.replicate 1048576 0) [], 1048576⟩
      (List.replicate 32 0xAB) 100 false).1 = (32, none) ∧
    (AioFileBackend.ReadAt fileEngine
      (AioFileBackend.WriteAt fileEngine ⟨FileAio.fresh (List.replicate 1048576 0) [], 1048576⟩
        (List.replicate 32 0xAB) 100 false).2 (List.replicate 32 0) 100).1 = (32, none) ∧
    (AioFileBackend.ReadAt fileEngine
      (AioFileBackend.WriteAt fileEngine ⟨FileAio.fresh (List.replicate 1048576 0) [], 1048576⟩
        (List.replicate 32 0xAB) 100 false).2 (List.replicate 32 0) 100).2.1 =
      List.replicate 32 0xAB := by
  have h := write_read_roundtrip (FileAio.fresh (List.replicate 1048576 0) []) 1048576
    (List.replicate 32 0xAB) (List.replicate 32 0) 100 false rfl (by decide)
    (by simp only [FileAio.fresh, List.length_replicate]; decide)
    (by simp only [List.length_replicate])
  simp only [List.length_replicate, Nat.cast_ofNat] at h
  exact ⟨h.1, h.2.1, h.2.2.1⟩

/-! ## At most one pending request -/

/-- The log a method call leaves is the log before it followed by the events of
the call, and the state it leaves does not depend on the log. -/
theorem step_traced_log (E : Engine σ) (s : σ) (log : List (Event σ)) (size : Nat)
    (op : Op) :
    ((⟨(s, log), size⟩ : AioFileBackend (σ × List (Event σ))).step E.traced op).aio.2 =
      log ++ ((⟨(s, []), size⟩ : AioFileBackend (σ × List (Event σ))).step
        E.traced op).aio.2 ∧
    ((⟨(s, log), size⟩ : AioFileBackend (σ × List (Event σ))).step E.traced op).aio.1 =
      ((⟨(s, []), size⟩ : AioFileBackend (σ × List (Event σ))).step E.traced op).aio.1 := by
  cases op <;>
    simp only [AioFileBackend.step, AioFileBackend.WriteAt, AioFileBackend.ReadAt,
      AioFileBackend.TrimAt, AioFileBackend.Flush, AioFileBackend.Close,
      AioFileBackend.Geometry, AioFileBackend.HasFua, AioFileBackend.HasFlush, Engine.traced]
  all_goals repeat' split
  all_goals simp_all

/-- The events of one method call other than `Close`, made when at most one
request is pending: after each of them at most one request is pending, and
every submission among them comes right after a `Wait` that returned nil and
left nothing pending. -/
theorem step_disciplined (E : Engine σ) (pend : σ → Nat) (L : PendingLaws E pend) (s : σ)
    (size : Nat) (op : Op) (hop : op ≠ Op.Close) (h1 : pend s ≤ 1) :
    (∀ e ∈ ((⟨(s, []), size⟩ : AioFileBackend (σ × List (Event σ))).step
      E.traced op).aio.2, pend e.post ≤ 1) ∧
    guarded pend false ((⟨(s, []), size⟩ : AioFileBackend (σ × List (Event σ))).step
      E.traced op).aio.2 = true ∧
    pend ((⟨(s, []), size⟩ : AioFileBackend (σ × List (Event σ))).step
      E.traced op).aio.1 ≤ 1 := by
  have w1 := L.wait_ok s
  have w2 := L.wait_le s
  have f0 := L.flush_le s
  cases op with
  | Close => exact absurd rfl hop
  | WriteAt b offset fua =>
    have a1 := L.writeAt_le b offset (E.Wait s).2
    have a2 := L.waitFor_le (E.WriteAt b offset (E.Wait s).2).1.1
      (E.WriteAt b offset (E.Wait s).2).2
    have a3 := L.flush_le (E.WaitFor (E.WriteAt b offset (E.Wait s).2).1.1
      (E.WriteAt b offset (E.Wait s).2).2).2
    simp only [AioFileBackend.step, AioFileBackend.WriteAt, Engine.traced]
    repeat' split
    all_goals simp_all [guarded, okWait, Call.isSubmit]
    all_goals omega
  | ReadAt b offset =>
    have a1 := L.readAt_le b offset (E.Wait s).2
    have a2 := L.waitFor_le (E.ReadAt b offset (E.Wait s).2).1.1
      (E.ReadAt b offset (E.Wait s).2).2
    simp only [AioFileBackend.step, AioFileBackend.ReadAt, Engine.traced]
    repeat' split
    all_goals simp_all [guarded, okWait, Call.isSubmit]
    all_goals omega
  | Flush =>
    simp only [AioFileBackend.step, AioFileBackend.Flush, Engine.traced]
    simp_all [guarded, okWait, Call.isSubmit]
    omega
  | TrimAt length offset => simpa [AioFileBackend.step, AioFileBackend.TrimAt, guarded] using h1
  | Geometry => simpa [AioFileBackend.step, AioFileBackend.Geometry, guarded] using h1
  | HasFua => simpa [AioFileBackend.step, AioFileBackend.HasFua, guarded] using h1
  | HasFlush => simpa [AioFileBackend.step, AioFileBackend.HasFlush, guarded] using h1

/-- A log that is guarded whatever came before it stays guarded after any
event. -/
theorem guarded_of_false (pend : σ → Nat) (p : Bool) (l : List (Event σ))
    (h : guarded pend false l = true) : guarded pend p l = true := by
  cases l with
  | nil => rfl
  | cons e es =>
    simp only [guarded, Bool.or_false, Bool.and_eq_true] at h ⊢
    exact ⟨by simp [h.1], h.2⟩

/-- Two guarded logs, the second guarded whatever came before it, make a
guarded log. -/
theorem guarded_append (pend : σ → Nat) (p : Bool) (l m : List (Event σ))
    (hl : guarded pend p l = true) (hm : guarded pend false m = true) :
    guarded pend p (l ++ m) = true := by
  induction l generalizing p with
  | nil => simpa using guarded_of_false pend p m hm
  | cons e es ih =>
    simp only [guarded, List.cons_append, Bool.and_eq_true] at hl ⊢
    exact ⟨hl.1, ih _ hl.2⟩

/-- In a guarded log a submission is either its first event, with a good
`Wait` right before the log, or it comes right after a good `Wait`. -/
theorem guarded_submit (pend : σ → Nat) (pre : List (Event σ)) (p : Bool)
    (e : Event σ) (post : List (Event σ))
    (h : guarded pend p (pre ++ e :: post) = true) (he : e.call.isSubmit = true) :
    (pre = [] ∧ p = true) ∨ ∃ pre' w, pre = pre' ++ [w] ∧ okWait pend w = true := by
  induction pre generalizing p with
  | nil =>
    simp only [List.nil_append, guarded, Bool.and_eq_true, he] at h
    left
    simpa using h.1
  | cons x xs ih =>
    simp only [List.cons_append, guarded, Bool.and_eq_true] at h
    right
    rcases ih _ h.2 with ⟨hx, hp⟩ | ⟨pre', w, hx, hw⟩
    · exact ⟨[], x, by simp [hx], hp⟩
    · exact ⟨x :: pre', w, by simp [hx], hw⟩

/-- The discipline over a sequence of method calls without `Close`, for any
engine that obeys `PendingLaws`. -/
theorem run_disciplined (E : Engine σ) (pend : σ → Nat) (L : PendingLaws E pend)
    (ops : List Op) (hc : Op.Close ∉ ops) (afb : AioFileBackend (σ × List (Event σ)))
    (h1 : pend afb.aio.1 ≤ 1) (hl : ∀ e ∈ afb.aio.2, pend e.post ≤ 1)
    (hg : guarded pend false afb.aio.2 = true) :
    (∀ e ∈ (afb.run E.traced ops).aio.2, pend e.post ≤ 1) ∧
    guarded pend false (afb.run E.traced ops).aio.2 = true := by
  induction ops generalizing afb with
  | nil => exact ⟨hl, hg⟩
  | cons op ops ih =>
    have hop : op ≠ Op.Close := fun h => hc (by simp [h])
    have hc' : Op.Close ∉ ops := fun h => hc (by simp [h])
    obtain ⟨d1, d2, d3⟩ := step_disciplined E pend L afb.aio.1 afb.size op hop h1
    obtain ⟨t1, t2⟩ := step_traced_log E afb.aio.1 afb.aio.2 afb.size op
    have e1 : (afb.step E.traced op).aio.2 = afb.aio.2 ++
        ((⟨(afb.aio.1, []), afb.size⟩ : AioFileBackend (σ × List (Event σ))).step
          E.traced op).aio.2 := t1
    have e2 : (afb.step E.traced op).aio.1 =
        ((⟨(afb.aio.1, []), afb.size⟩ : AioFileBackend (σ × List (Event σ))).step
          E.traced op).aio.1 := t2
    have := ih hc' (afb.step E.traced op) (by rw [e2]; exact d3)
      (by
        rw [e1]
        intro e he
        rcases List.mem_append.1 he with h | h
        · exact hl e h
        · exact d1 e h)
      (by rw [e1]; exact guarded_append pend false _ _ hg d2)
    simpa [AioFileBackend.run] using this

/-- Completing a request does not touch the pending list. -/
theorem complete_pending (s : FileAio) (r : Request) :
    (s.complete r).2.pending = s.pending := by
  unfold FileAio.complete
  repeat' split
  all_goals rfl

/-- The reference engine obeys `PendingLaws`, whatever its fault script. -/
theorem fileEngine_pendingLaws : PendingLaws fileEngine (fun s => s.pending.length) where
  wait_ok := by
    intro s
    simp only [fileEngine, FileAio.wait]
    split <;> simp
  wait_le := by
    intro s
    simp only [fileEngine, FileAio.wait]
    split <;> simp
  writeAt_le := by
    intro b o s
    simp only [fileEngine, FileAio.submit]
    split <;> simp
  readAt_le := by
    intro b o s
    simp only [fileEngine, FileAio.submit]
    split <;> simp
  waitFor_le := by
    intro id s
    simp only [fileEngine, FileAio.waitFor]
    repeat' split
    all_goals simp only [complete_pending, le_refl]
    all_goals exact List.length_filter_le _ _
  flush_le := by
    intro s
    simp only [fileEngine, FileAio.sync]
    split <;> simp

/-- C5: on the reference engine, whose state holds the pending requests (a
submission adds one, a `Wait` that returns nil leaves none, `WaitFor(id)`
removes `id`) and whose calls fail as an arbitrary fault script says, for a
backend with nothing pending and every sequence of `WriteAt`, `ReadAt`,
`TrimAt`, `Flush`, `Geometry`, `HasFua` and `HasFlush` calls made one at a
time: after every engine call at most one request is pending, and every
submission comes right after a `Wait` that returned nil and left nothing
pending. -/
theorem single_outstanding_request (s : FileAio) (size : Nat) (ops : List Op)
    (hp : s.pending = []) (hc : Op.Close ∉ ops) :
    (∀ e ∈ (AioFileBackend.run fileEngine.traced ⟨(s, []), size⟩ ops).aio.2,
      e.post.pending.length ≤ 1) ∧
    (∀ pre e post,
      (AioFileBackend.run fileEngine.traced ⟨(s, []), size⟩ ops).aio.2 = pre ++ e :: post →
      e.call.isSubmit = true →
      ∃ pre' w, pre = pre' ++ [w] ∧ w.call = Call.Wait ∧ w.err = none ∧
        w.post.pending = []) := by
  obtain ⟨h1, h2⟩ := run_disciplined fileEngine (fun s => s.pending.length)
    fileEngine_pendingLaws ops hc ⟨(s, []), size⟩ (by simp [hp]) (by simp) rfl
  refine ⟨h1, ?_⟩
  intro pre e post htr he
  rw [htr] at h2
  rcases guarded_submit _ pre false e post h2 he with ⟨_, hf⟩ | ⟨pre', w, hpre, hw⟩
  · cases hf
  · refine ⟨pre', w, hpre, ?_⟩
    simpa [okWait, Option.isNone_iff_eq_none, List.length_eq_zero, and_assoc] using hw

/-- C5 at a concrete input: a write whose `WaitFor` fails and leaves the
request pending, then a read, a trim and a flush; the numbers of pending
requests after the eight engine calls are as listed, none above one. -/
theorem single_outstanding_request_witness :
    ((AioFileBackend.run fileEngine.traced
        ⟨(FileAio.fresh [0, 0, 0, 0] [Fault.ok, Fault.ok, Fault.fail], []), 4⟩
        [Op.WriteAt [1, 2] 1 true, Op.ReadAt [0, 0] 1, Op.TrimAt 2 0, Op.Flush]).aio.2.map
      fun e => (e.call, e.post.pending.length)) =
      [(Call.Wait, 0), (Call.WriteAt [1, 2] 1, 1), (Call.WaitFor 0, 1), (Call.Wait, 0),
        (Call.ReadAt [0, 0] 1, 1), (Call.WaitFor 1, 0), (Call.Flush, 0)] ∧
    ((AioFileBackend.run fileEngine.traced
        ⟨(FileAio.fresh [0, 0, 0, 0] [Fault.ok, Fault.ok, Fault.fail], []), 4⟩
        [Op.WriteAt [1, 2] 1 true, Op.ReadAt [0, 0] 1, Op.TrimAt 2 0, Op.Flush]).aio.2.all
      fun e => decide (e.post.pending.length ≤ 1)) = true :=
  ⟨by decide, List.all_eq_true.2 fun e he => decide_eq_true
    ((single_outstanding_request
      (FileAio.fresh [0, 0, 0, 0] [Fault.ok, Fault.ok, Fault.fail]) 4
      [Op.WriteAt [1, 2] 1 true, Op.ReadAt [0, 0] 1, Op.TrimAt 2 0, Op.Flush] rfl
      (by decide)).1 e he)⟩

end Nbd
